import Mathlib

/-!
Verification of `energym/utils/common.py`: simulation-time arithmetic
(`get_delta_seconds`, `get_current_time_info`), the variable-file parser
(`parse_variables`), the weather perturber (`create_variable_weather`) and the
logger factory (`Logger.getLogger`).

The two time utilities are thin wrappers around Python `datetime` /
`timedelta` arithmetic, so the bulk of this file is a shallow embedding of
`datetime`'s proleptic-Gregorian semantics: dates are `(year, month, day)`
triples of integers, instants are measured in whole seconds, and
`datetime + timedelta(seconds=s)` is embedded as "normalise `s` into whole
days plus a second-of-day in `[0, 86400)`, then step the calendar date by
that many days".  Python's `datetime` only represents years 1..9999 and
raises `OverflowError` when an arithmetic result leaves that range, so the
embedding carries the same bounds.  `Int` division `/` and `%` below are
Euclidean (floor for positive divisors), matching Python's `//` and `%`.
-/

set_option maxHeartbeats 1000000

/-- Exception classes that the embedded code can raise.  `invalidRunPeriod`
abstracts the lookup failures raised when the run-period table is empty or a
field is missing (the spec's `InvalidRunPeriod`); `keyError` / `indexError`
are the dict / sequence access failures of `parse_variables` and the missing
column failure of the dataframe; `valueError` is `datetime`'s rejection of an
invalid date; `overflowError` is `datetime`'s out-of-range arithmetic error. -/
inductive PyError where
  | valueError
  | overflowError
  | keyError
  | indexError
  | invalidRunPeriod
deriving DecidableEq, Repr

/-- Proleptic-Gregorian leap-year rule, as used by Python `datetime`. -/
def Leap (y : Int) : Prop := (y % 4 = 0 ∧ y % 100 ≠ 0) ∨ y % 400 = 0

instance : DecidablePred Leap := fun y => by unfold Leap; infer_instance

/-- Number of days in month `m` of year `y` (Gregorian). -/
def monthDays (y m : Int) : Int :=
  if m = 2 then (if Leap y then 29 else 28)
  else if m = 4 ∨ m = 6 ∨ m = 9 ∨ m = 11 then 30 else 31

/-- Day number of a civil date on the proleptic Gregorian calendar, with
1970-01-01 as day 0.  This is Python's `date.toordinal()` shifted by the
constant 719163 (`date(1970,1,1).toordinal()`). -/
def daysFromCivil (y m d : Int) : Int :=
  let y2 := if m ≤ 2 then y - 1 else y
  let era := y2 / 400
  let yoe := y2 - era * 400
  let mp := if m > 2 then m - 3 else m + 9
  let doy := (153 * mp + 2) / 5 + d - 1
  let doe := yoe * 365 + yoe / 4 - yoe / 100 + doy
  era * 146097 + doe - 719468

/-- A `(year, month, day)` triple that Python `datetime` accepts:
years 1..9999 (`MINYEAR`/`MAXYEAR`), months 1..12, days within the month. -/
def validDate (y m d : Int) : Prop :=
  1 ≤ y ∧ y ≤ 9999 ∧ 1 ≤ m ∧ m ≤ 12 ∧ 1 ≤ d ∧ d ≤ monthDays y m

instance (y m d : Int) : Decidable (validDate y m d) := by
  unfold validDate; infer_instance

/-- Day number of `datetime.min`'s date 0001-01-01. -/
def minDay : Int := -719162

/-- Day number of `datetime.max`'s date 9999-12-31. -/
def maxDay : Int := 2932896

/-- Calendar successor of a date. -/
def nextDay : Int × Int × Int → Int × Int × Int
  | (y, m, d) =>
    if d < monthDays y m then (y, m, d + 1)
    else if m < 12 then (y, m + 1, 1) else (y + 1, 1, 1)

/-- Calendar predecessor of a date. -/
def prevDay : Int × Int × Int → Int × Int × Int
  | (y, m, d) =>
    if 1 < d then (y, m, d - 1)
    else if 1 < m then (y, m - 1, monthDays y (m - 1)) else (y - 1, 12, 31)

/-- `daysFromCivil` on a packed triple. -/
def toDay : Int × Int × Int → Int
  | (y, m, d) => daysFromCivil y m d

/-- `validDate` on a packed triple. -/
def ValidD : Int × Int × Int → Prop
  | (y, m, d) => validDate y m d

instance (x : Int × Int × Int) : Decidable (ValidD x) := by
  obtain ⟨y, m, d⟩ := x; show Decidable (validDate y m d); infer_instance

/-- Shallow embedding of adding a (possibly negative) number of days to a
`datetime`'s date: iterate the calendar successor or predecessor. -/
def addDays (x : Int × Int × Int) (k : Int) : Int × Int × Int :=
  if 0 ≤ k then nextDay^[k.toNat] x else prevDay^[(-k).toNat] x

/-- Total days in months `1..n` of year `y` (spec-side prefix sum). -/
def cumDays (y : Int) : Nat → Int
  | 0 => 0
  | n + 1 => cumDays y n + monthDays y (n + 1)

/-- Spec-side day-of-year: the days of the months before `m`, plus `d`. -/
def dayOfYear (y m d : Int) : Int := cumDays y (m - 1).toNat + d

/-- Spec-side number of days from `(m1, d1)` to `(m2, d2)` of year `y`,
both endpoints included. -/
def inclusiveDays (y m1 d1 m2 d2 : Int) : Int :=
  dayOfYear y m2 d2 - dayOfYear y m1 d1 + 1

/-- Shallow embedding of `get_delta_seconds(year, st_mon, st_day, end_mon,
end_day)`: seconds between `datetime(year, st_mon, st_day, 0, 0, 0)` and
`datetime(year, end_mon, end_day, 23, 0, 0) + timedelta(0, 3600)`.  The
`datetime` constructors raise `ValueError` on an invalid date, and the
one-hour addition raises `OverflowError` when it passes `datetime.max`
(i.e. exactly when the end date is 9999-12-31, since the sum is then
midnight of year 10000).  The Python result is a float carrying an exact
integral number of seconds; it is embedded as that integer. -/
def get_delta_seconds (year stMon stDay endMon endDay : Int) : Except PyError Int :=
  if validDate year stMon stDay then
    if validDate year endMon endDay then
      let startTime := daysFromCivil year stMon stDay * 86400
      let endTime := daysFromCivil year endMon endDay * 86400 + 23 * 3600 + 3600
      if maxDay * 86400 + 86399 < endTime then Except.error PyError.overflowError
      else Except.ok (endTime - startTime)
    else Except.error PyError.valueError
  else Except.error PyError.valueError

/-- One row of the opyplus `RunPeriod` table; the two fields read by the
code, each possibly missing. -/
structure RunPeriodEntry where
  begin_month : Option Int
  begin_day_of_month : Option Int

/-- The slice of the opyplus `Epm` model object that `get_current_time_info`
reads: the `RunPeriod` table. -/
structure Epm where
  RunPeriod : List RunPeriodEntry

/-- Shallow embedding of `get_current_time_info(epm, sec_elapsed, sim_year)`
(the Python default for `sim_year` is 1991).  Empty `RunPeriod` table or a
missing field raises the lookup error the spec calls `InvalidRunPeriod`; the
`datetime` constructor raises `ValueError` on an invalid start date; adding
`timedelta(seconds=sec_elapsed)` raises `OverflowError` when the result falls
outside years 1..9999.  Otherwise the result is the `(day, month, hour)` of
the shifted instant, where `timedelta` normalisation makes the day shift
`sec_elapsed // 86400` and the second-of-day `sec_elapsed % 86400`, and
`.hour` truncates to `// 3600`. -/
def get_current_time_info (epm : Epm) (sec_elapsed : Int) (sim_year : Int) :
    Except PyError (Int × Int × Int) :=
  match epm.RunPeriod with
  | [] => Except.error PyError.invalidRunPeriod
  | rp :: _ =>
    match rp.begin_month, rp.begin_day_of_month with
    | some bm, some bd =>
      if validDate sim_year bm bd then
        let startDay := daysFromCivil sim_year bm bd
        let dayShift := sec_elapsed / 86400
        if startDay + dayShift < minDay ∨ maxDay < startDay + dayShift then
          Except.error PyError.overflowError
        else
          let current := addDays (sim_year, bm, bd) dayShift
          Except.ok (current.2.2, current.2.1, sec_elapsed % 86400 / 3600)
      else Except.error PyError.valueError
    | _, _ => Except.error PyError.invalidRunPeriod

/-- An XML element: tag, attribute list, child elements (document order). -/
inductive XElem where
  | mk (tag : String) (attrib : List (String × String)) (children : List XElem)

def XElem.tag : XElem → String
  | .mk t _ _ => t

def XElem.attrib : XElem → List (String × String)
  | .mk _ a _ => a

def XElem.children : XElem → List XElem
  | .mk _ _ c => c

/-- Python `elem.attrib[k]`, as an option (attributes of an element are
unique, so association-list lookup is the dict access). -/
def getAttr (e : XElem) (k : String) : Option String :=
  List.lookup k e.attrib

/-- The loop of `parse_variables` over `root.findall('variable')`:
`var.attrib['source']` raises `KeyError` when absent; for EnergyPlus-sourced
variables `var[0]` raises `IndexError` on a childless element and
`var[0].attrib['type']` raises `KeyError`; other sources are skipped. -/
def parseVarList : List XElem → Except PyError (List String)
  | [] => Except.ok []
  | v :: rest =>
    match getAttr v "source" with
    | none => Except.error PyError.keyError
    | some s =>
      if s = "EnergyPlus" then
        match v.children with
        | [] => Except.error PyError.indexError
        | c :: _ =>
          match getAttr c "type" with
          | none => Except.error PyError.keyError
          | some t => (parseVarList rest).map (fun l => t :: l)
      else parseVarList rest

/-- Shallow embedding of `parse_variables(var_file)` on the parsed document
root: `root.findall('variable')` is the direct children tagged `variable`,
in document order. -/
def parse_variables (root : XElem) : Except PyError (List String) :=
  parseVarList (root.children.filter (fun v => v.tag == "variable"))

/-- A `variable` element following the documented schema: it has a `source`
attribute and exactly one child, which has a `type` attribute. -/
def varElemOK (v : XElem) : Bool :=
  (getAttr v "source").isSome &&
    (match v.children with
     | [c] => (getAttr c "type").isSome
     | _ => false)

/-- The document follows the documented schema: every `variable` child of the
root is well-formed. -/
def schemaOK (root : XElem) : Bool :=
  root.children.all (fun v => !(v.tag == "variable") || varElemOK v)

/-- Spec-side result list: the `type` value of the single child of each
`variable` whose `source` is `EnergyPlus`, in document order. -/
def specVarList (root : XElem) : List String :=
  (root.children.filter
      (fun v => v.tag == "variable" && (getAttr v "source" == some "EnergyPlus"))).map
    (fun v => ((v.children.head?).bind (fun c => getAttr c "type")).getD "")

/-- A `variable` element on which the parser loop raises: `source` missing,
or EnergyPlus-sourced but childless or with a first child lacking `type`. -/
def badVar (v : XElem) : Prop :=
  getAttr v "source" = none ∨
    (getAttr v "source" = some "EnergyPlus" ∧
      (v.children = [] ∨ ∃ c cs, v.children = c :: cs ∧ getAttr c "type" = none))

/-- A pandas dataframe, as an ordered list of named columns; cell values are
embedded as rationals. -/
abbrev DataFrame := List (String × List Rat)

/-- The opyplus `WeatherData` object: holds the weather series. -/
structure WeatherData where
  weather_series : DataFrame

/-- Observable outcome of a `create_variable_weather` call: the returned
value, the final state of the weather object, and the files written. -/
structure WeatherResult where
  ret : Option (List Char)
  wd : WeatherData
  written : List (List Char × DataFrame)

/-- `df[columns] += np.random.normal(mu, std, (df.shape[0], len(columns)))`:
each named target column receives its noise column added elementwise; `g r c`
is the standard-normal draw at row `r` of noise column `c`, so the sample
added is `mu + std * g r c`.  Columns not named in `columns` are untouched. -/
def addNoise (df : DataFrame) (columns : List String) (mu std : Int)
    (g : Nat → Nat → Rat) : DataFrame :=
  df.map (fun col =>
    match List.findIdx? (fun c => c == col.1) columns with
    | some j => (col.1, col.2.mapIdx (fun r v => v + ((mu : Rat) + (std : Rat) * g r j)))
    | none => col)

/-- Python `original.split('.epw')[0]` on char lists: the prefix before the
first occurrence of `sep` (the whole string when `sep` does not occur). -/
def splitHead (sep : List Char) : List Char → List Char
  | [] => []
  | c :: rest => if sep.isPrefixOf (c :: rest) then [] else c :: splitHead sep rest

/-- Index of the first occurrence of `sep` in a char list, if any. -/
def firstOccur (sep : List Char) : List Char → Option Nat
  | [] => none
  | c :: rest =>
    if sep.isPrefixOf (c :: rest) then some 0
    else (firstOccur sep rest).map (fun i => i + 1)

/-- Spec-side reading "portion before the first occurrence of `sep`". -/
def beforeFirst (sep s : List Char) : List Char :=
  match firstOccur sep s with
  | some i => s.take i
  | none => s

/-- The claim's reading "strip the `.epw` suffix". -/
def stripEpwSuffix (s : List Char) : List Char :=
  if List.isSuffixOf (String.toList ".epw") s then s.take (s.length - 4) else s

/-- The output path `original.split('.epw')[0] + '_Random_%s_%s.epw'
% (str(mu), str(std))`. -/
def noiseFilename (original : List Char) (mu std : Int) : List Char :=
  splitHead (String.toList ".epw") original ++
    String.toList ("_Random_" ++ toString mu ++ "_" ++ toString std ++ ".epw")

/-- Shallow embedding of `create_variable_weather(weather_data,
original_epw_file, columns, variation)`; `g` stands for the process-wide
NumPy random source (its standard-normal draws).  With `variation=None`
nothing happens and `None` is returned.  Otherwise the series is read, the
named columns (Python default `['drybulb']`) get Gaussian noise added — a
missing column raises the dataframe's `KeyError` — the mutated frame is
stored back into the weather object, written to the derived path, and that
path is returned. -/
def create_variable_weather (weather_data : WeatherData) (original_epw_file : List Char)
    (columns : List String) (variation : Option (Int × Int)) (g : Nat → Nat → Rat) :
    Except PyError WeatherResult :=
  match variation with
  | none => Except.ok ⟨none, weather_data, []⟩
  | some (mu, std) =>
    let df := weather_data.weather_series
    if columns.all (fun c => df.any (fun col => col.1 == c)) then
      let df2 := addNoise df columns mu std g
      let filename := noiseFilename original_epw_file mu std
      Except.ok ⟨some filename, ⟨df2⟩, [(filename, df2)]⟩
    else Except.error PyError.keyError

/-- The filename returned by a `create_variable_weather` call, if any. -/
def retOf (e : Except PyError WeatherResult) : Option (List Char) :=
  match e with
  | Except.ok r => r.ret
  | Except.error _ => none

/-- A console (`StreamHandler`) logging handler with its format string. -/
structure Handler where
  fmtStr : String
deriving DecidableEq

/-- The state of one logger in the `logging` registry. -/
structure PyLogger where
  level : Int
  propagate : Bool
  handlers : List Handler
deriving DecidableEq

/-- The process-wide `logging` registry of named loggers. -/
abbrev LogRegistry := List (String × PyLogger)

/-- `logging.getLogger(name)`: the registered logger, or a fresh one
(level `NOTSET = 0`, `propagate = True`, no handlers). -/
def logging_getLogger (reg : LogRegistry) (name : String) : PyLogger :=
  match List.lookup name reg with
  | some lg => lg
  | none => ⟨0, true, []⟩

/-- Store the state of logger `name` back into the registry. -/
def regSet (reg : LogRegistry) (name : String) (lg : PyLogger) : LogRegistry :=
  (name, lg) :: reg.filter (fun p => !(p.1 == name))

/-- Shallow embedding of `Logger.getLogger(self, name, level, formatter)` as
a registry transformer: fetch-or-create the named logger, append one console
handler with the given format, set the level, clear `propagate`, and return
the updated registry with the logger. -/
def Logger.getLogger (reg : LogRegistry) (name : String) (level : Int)
    (formatter : String) : LogRegistry × PyLogger :=
  let logger := logging_getLogger reg name
  let logger2 : PyLogger := ⟨level, false, logger.handlers ++ [⟨formatter⟩]⟩
  (regSet reg name logger2, logger2)

/-- The spec's worked example document: two `variable` elements, one
EnergyPlus-sourced with child `type="Zone Temp"`, one other-sourced. -/
def exVarRoot : XElem :=
  XElem.mk "BCVTB-variables" []
    [XElem.mk "variable" [("source", "EnergyPlus")]
      [XElem.mk "EnergyPlus" [("type", "Zone Temp")] []],
     XElem.mk "variable" [("source", "Other")]
      [XElem.mk "EnergyPlus" [("type", "Ignored")] []]]

/-- A well-formed document whose single `variable` element carries no
attributes at all (in particular, no `source`). -/
def cexVarRoot : XElem :=
  XElem.mk "BCVTB-variables" [] [XElem.mk "variable" [] []]

/-- A small concrete weather series. -/
def exDF : DataFrame := [("drybulb", [1, 2]), ("other", [5])]

/-- A concrete nonzero stand-in for the standard-normal draws. -/
def exG : Nat → Nat → Rat := fun r c => (r : Rat) + (c : Rat) + 1

theorem monthDays_ge (y m : Int) : 28 ≤ monthDays y m := by
  unfold monthDays; split_ifs <;> omega

theorem monthDays_le (y m : Int) : monthDays y m ≤ 31 := by
  unfold monthDays; split_ifs <;> omega

theorem monthDays_jan (y : Int) : monthDays y 1 = 31 := by norm_num [monthDays]

theorem monthDays_dec (y : Int) : monthDays y 12 = 31 := by norm_num [monthDays]

theorem toDay_min : toDay (1, 1, 1) = minDay := by decide

theorem toDay_max : toDay (9999, 12, 31) = maxDay := by decide

theorem nextDay_pair (y m d : Int) :
    nextDay (y, m, d) = if d < monthDays y m then (y, m, d + 1)
      else if m < 12 then (y, m + 1, 1) else (y + 1, 1, 1) := rfl

theorem prevDay_pair (y m d : Int) :
    prevDay (y, m, d) = if 1 < d then (y, m, d - 1)
      else if 1 < m then (y, m - 1, monthDays y (m - 1)) else (y - 1, 12, 31) := rfl

/-- Stepping one day forward increments the day number. -/
theorem toDay_nextDay {y m d : Int} (h : validDate y m d) :
    toDay (nextDay (y, m, d)) = daysFromCivil y m d + 1 := by
  obtain ⟨hy1, hy2, hm1, hm2, hd1, hd2⟩ := h
  rw [nextDay_pair]
  by_cases hlt : d < monthDays y m
  · rw [if_pos hlt]
    show daysFromCivil y m (d + 1) = daysFromCivil y m d + 1
    simp only [daysFromCivil]
    split_ifs <;> omega
  · rw [if_neg hlt]
    have hd : d = monthDays y m := by omega
    clear hlt hd1 hd2
    by_cases hm12 : m < 12
    · rw [if_pos hm12]
      show daysFromCivil y (m + 1) 1 = daysFromCivil y m d + 1
      interval_cases m <;>
        simp only [monthDays, Leap] at hd <;>
        norm_num at hd <;>
        simp only [daysFromCivil] <;>
        norm_num <;>
        (try split_ifs at hd) <;>
        omega
    · rw [if_neg hm12]
      have hm : m = 12 := by omega
      subst hm
      rw [monthDays_dec] at hd
      show daysFromCivil (y + 1) 1 1 = daysFromCivil y 12 d + 1
      simp only [daysFromCivil]
      norm_num
      omega

/-- Every valid date has day number at least that of 0001-01-01. -/
theorem toDay_lower {y m d : Int} (h : validDate y m d) :
    minDay ≤ daysFromCivil y m d := by
  obtain ⟨hy1, hy2, hm1, hm2, hd1, hd2⟩ := h
  interval_cases m <;>
    simp only [monthDays, Leap, minDay, daysFromCivil] at hd2 ⊢ <;>
    norm_num at hd2 ⊢ <;>
    (try split_ifs at hd2) <;>
    omega

/-- Every valid date has day number at most that of 9999-12-31. -/
theorem toDay_upper {y m d : Int} (h : validDate y m d) :
    daysFromCivil y m d ≤ maxDay := by
  obtain ⟨hy1, hy2, hm1, hm2, hd1, hd2⟩ := h
  interval_cases m <;>
    simp only [monthDays, Leap, maxDay, daysFromCivil] at hd2 ⊢ <;>
    norm_num at hd2 ⊢ <;>
    (try split_ifs at hd2) <;>
    omega

/-- The successor of a valid date other than 9999-12-31 is valid. -/
theorem nextDay_valid {y m d : Int} (h : validDate y m d)
    (hne : (y, m, d) ≠ ((9999 : Int), (12 : Int), (31 : Int))) :
    ValidD (nextDay (y, m, d)) := by
  obtain ⟨hy1, hy2, hm1, hm2, hd1, hd2⟩ := h
  rw [nextDay_pair]
  by_cases hlt : d < monthDays y m
  · rw [if_pos hlt]
    show validDate y m (d + 1)
    exact ⟨hy1, hy2, hm1, hm2, by omega, by omega⟩
  · rw [if_neg hlt]
    by_cases hm12 : m < 12
    · rw [if_pos hm12]
      show validDate y (m + 1) 1
      have := monthDays_ge y (m + 1)
      exact ⟨hy1, hy2, by omega, by omega, by omega, by omega⟩
    · rw [if_neg hm12]
      have hm : m = 12 := by omega
      subst hm
      rw [monthDays_dec] at hlt hd2
      have hd : d = 31 := by omega
      subst hd
      have hy : y ≠ 9999 := fun hy => hne (by rw [hy])
      show validDate (y + 1) 1 1
      rw [validDate, monthDays_jan]
      omega

/-- A valid date other than 0001-01-01 has a valid predecessor, and
`nextDay` undoes `prevDay`. -/
theorem prevDay_valid {y m d : Int} (h : validDate y m d)
    (hne : (y, m, d) ≠ ((1 : Int), (1 : Int), (1 : Int))) :
    ValidD (prevDay (y, m, d)) ∧ nextDay (prevDay (y, m, d)) = (y, m, d) := by
  obtain ⟨hy1, hy2, hm1, hm2, hd1, hd2⟩ := h
  rw [prevDay_pair]
  by_cases hd' : 1 < d
  · rw [if_pos hd']
    constructor
    · exact ⟨hy1, hy2, hm1, hm2, by omega, by omega⟩
    · rw [nextDay_pair, if_pos (by omega : d - 1 < monthDays y m)]
      congr 2
      omega
  · rw [if_neg hd']
    have hd1' : d = 1 := by omega
    subst hd1'
    by_cases hm' : 1 < m
    · rw [if_pos hm']
      have h28 := monthDays_ge y (m - 1)
      constructor
      · exact ⟨hy1, hy2, by omega, by omega, by omega, le_refl _⟩
      · rw [nextDay_pair, if_neg (by omega : ¬ monthDays y (m - 1) < monthDays y (m - 1)),
          if_pos (by omega : m - 1 < 12)]
        congr 2
        omega
    · rw [if_neg hm']
      have hm1' : m = 1 := by omega
      subst hm1'
      have hy' : y ≠ 1 := fun hy => hne (by rw [hy])
      constructor
      · show validDate (y - 1) 12 31
        rw [validDate, monthDays_dec]
        omega
      · rw [nextDay_pair, monthDays_dec, if_neg (by omega : ¬ (31 : Int) < 31),
          if_neg (by omega : ¬ (12 : Int) < 12)]
        congr 2
        omega

theorem toDay_nextDay_t {x : Int × Int × Int} (h : ValidD x) :
    toDay (nextDay x) = toDay x + 1 := by
  obtain ⟨y, m, d⟩ := x; exact toDay_nextDay h

theorem toDay_lower_t {x : Int × Int × Int} (h : ValidD x) : minDay ≤ toDay x := by
  obtain ⟨y, m, d⟩ := x; exact toDay_lower h

theorem toDay_upper_t {x : Int × Int × Int} (h : ValidD x) : toDay x ≤ maxDay := by
  obtain ⟨y, m, d⟩ := x; exact toDay_upper h

theorem nextDay_valid_t {x : Int × Int × Int} (h : ValidD x)
    (hne : x ≠ ((9999 : Int), (12 : Int), (31 : Int))) : ValidD (nextDay x) := by
  obtain ⟨y, m, d⟩ := x; exact nextDay_valid h hne

theorem prevDay_valid_t {x : Int × Int × Int} (h : ValidD x)
    (hne : x ≠ ((1 : Int), (1 : Int), (1 : Int))) :
    ValidD (prevDay x) ∧ nextDay (prevDay x) = x := by
  obtain ⟨y, m, d⟩ := x; exact prevDay_valid h hne

/-- Stepping one day back decrements the day number. -/
theorem toDay_prevDay {x : Int × Int × Int} (h : ValidD x)
    (hne : x ≠ ((1 : Int), (1 : Int), (1 : Int))) :
    toDay (prevDay x) = toDay x - 1 := by
  obtain ⟨hv, heq⟩ := prevDay_valid_t h hne
  have := toDay_nextDay_t hv
  rw [heq] at this
  omega

/-- Every valid date is reached from 0001-01-01 by iterating `nextDay`
its day-number difference many times. -/
theorem reach_from_min :
    ∀ (n : Nat) (x : Int × Int × Int), ValidD x → (toDay x - minDay).toNat = n →
      nextDay^[n] (1, 1, 1) = x := by
  intro n
  induction n with
  | zero =>
    intro x hv hn
    have hlow := toDay_lower_t hv
    have hday : toDay x = minDay := by omega
    by_contra hne
    have hne' : x ≠ ((1 : Int), (1 : Int), (1 : Int)) := by
      intro he; exact hne (by rw [he, Function.iterate_zero_apply])
    obtain ⟨hv', _⟩ := prevDay_valid_t hv hne'
    have hstep := toDay_prevDay hv hne'
    have := toDay_lower_t hv'
    omega
  | succ n ih =>
    intro x hv hn
    have hlow := toDay_lower_t hv
    have hne' : x ≠ ((1 : Int), (1 : Int), (1 : Int)) := by
      intro he
      rw [he, toDay_min] at hn
      omega
    obtain ⟨hv', heq⟩ := prevDay_valid_t hv hne'
    have hstep := toDay_prevDay hv hne'
    have hlow' := toDay_lower_t hv'
    have hn' : (toDay (prevDay x) - minDay).toNat = n := by omega
    rw [Function.iterate_succ_apply', ih (prevDay x) hv' hn', heq]

/-- `daysFromCivil` is injective on valid dates. -/
theorem toDay_injective {x z : Int × Int × Int} (hx : ValidD x) (hz : ValidD z)
    (h : toDay x = toDay z) : x = z := by
  have h1 := reach_from_min (toDay x - minDay).toNat x hx rfl
  have h2 := reach_from_min (toDay z - minDay).toNat z hz rfl
  rw [← h1, ← h2, h]

/-- From any valid date, iterating `nextDay` reaches any later valid date. -/
theorem reach_between {x z : Int × Int × Int} (hx : ValidD x) (hz : ValidD z)
    (h : toDay x ≤ toDay z) : nextDay^[(toDay z - toDay x).toNat] x = z := by
  have hlx := toDay_lower_t hx
  have h1 := reach_from_min (toDay x - minDay).toNat x hx rfl
  have h2 := reach_from_min (toDay z - minDay).toNat z hz rfl
  have hsum : (toDay z - minDay).toNat =
      (toDay z - toDay x).toNat + (toDay x - minDay).toNat := by omega
  calc nextDay^[(toDay z - toDay x).toNat] x
      = nextDay^[(toDay z - toDay x).toNat] (nextDay^[(toDay x - minDay).toNat] (1, 1, 1)) := by
        rw [h1]
    _ = nextDay^[(toDay z - toDay x).toNat + (toDay x - minDay).toNat] (1, 1, 1) :=
        (Function.iterate_add_apply _ _ _ _).symm
    _ = nextDay^[(toDay z - minDay).toNat] (1, 1, 1) := by rw [← hsum]
    _ = z := h2

/-- Iterating `nextDay` from 0001-01-01 stays valid while in range, and
advances the day number one per step. -/
theorem iterate_valid_from_min :
    ∀ (k : Nat), (k : Int) ≤ maxDay - minDay →
      ValidD (nextDay^[k] (1, 1, 1)) ∧ toDay (nextDay^[k] (1, 1, 1)) = minDay + k := by
  intro k
  induction k with
  | zero =>
    intro _
    refine ⟨by decide, ?_⟩
    rw [Function.iterate_zero_apply, toDay_min]
    omega
  | succ k ih =>
    intro hk
    obtain ⟨hv, hday⟩ := ih (by omega)
    have hne : nextDay^[k] (1, 1, 1) ≠ ((9999 : Int), (12 : Int), (31 : Int)) := by
      intro he
      rw [he, toDay_max] at hday
      omega
    have hv' := nextDay_valid_t hv hne
    have hstep := toDay_nextDay_t hv
    rw [Function.iterate_succ_apply']
    refine ⟨hv', ?_⟩
    rw [hstep, hday]
    push_cast
    omega

/-- Every day number in `datetime`'s range is the day number of a valid date. -/
theorem toDay_surjective (t : Int) (h1 : minDay ≤ t) (h2 : t ≤ maxDay) :
    ∃ x : Int × Int × Int, ValidD x ∧ toDay x = t := by
  obtain ⟨hv, hday⟩ := iterate_valid_from_min (t - minDay).toNat (by omega)
  exact ⟨nextDay^[(t - minDay).toNat] (1, 1, 1), hv, by rw [hday]; omega⟩

/-- Iterating `prevDay` while staying at or above 0001-01-01 stays valid and
decreases the day number one per step. -/
theorem prev_iterate_valid :
    ∀ (j : Nat) (x : Int × Int × Int), ValidD x → minDay ≤ toDay x - j →
      ValidD (prevDay^[j] x) ∧ toDay (prevDay^[j] x) = toDay x - j := by
  intro j
  induction j with
  | zero =>
    intro x hv _
    refine ⟨hv, ?_⟩
    rw [Function.iterate_zero_apply]
    omega
  | succ j ih =>
    intro x hv hj
    have hne : x ≠ ((1 : Int), (1 : Int), (1 : Int)) := by
      intro he
      rw [he, toDay_min] at hj
      push_cast at hj
      omega
    obtain ⟨hv', _⟩ := prevDay_valid_t hv hne
    have hstep := toDay_prevDay hv hne
    have hj' : minDay ≤ toDay (prevDay x) - j := by
      rw [hstep]; push_cast at hj ⊢; omega
    obtain ⟨hvj, hdj⟩ := ih (prevDay x) hv' hj'
    rw [Function.iterate_succ_apply]
    refine ⟨hvj, ?_⟩
    rw [hdj, hstep]
    push_cast
    omega

/-- `addDays` lands on the unique valid date at the shifted day number. -/
theorem addDays_char {x z : Int × Int × Int} {k : Int} (hx : ValidD x) (hz : ValidD z)
    (h : toDay z = toDay x + k) : addDays x k = z := by
  unfold addDays
  by_cases hk : 0 ≤ k
  · rw [if_pos hk]
    have := reach_between hx hz (by omega)
    have harg : (toDay z - toDay x).toNat = k.toNat := by omega
    rw [harg] at this
    exact this
  · rw [if_neg hk]
    have hlz := toDay_lower_t hz
    have hrange : minDay ≤ toDay x - ((-k).toNat : Int) := by omega
    obtain ⟨hv, hday⟩ := prev_iterate_valid (-k).toNat x hx hrange
    exact toDay_injective hv hz (by omega)

/-- Unfolding of `get_current_time_info` on the non-error path. -/
theorem get_current_time_info_ok (bm bd : Int) (rest : List RunPeriodEntry)
    (sec simYear : Int) (hv : validDate simYear bm bd)
    (h1 : minDay ≤ daysFromCivil simYear bm bd + sec / 86400)
    (h2 : daysFromCivil simYear bm bd + sec / 86400 ≤ maxDay) :
    get_current_time_info ⟨⟨some bm, some bd⟩ :: rest⟩ sec simYear =
      Except.ok ((addDays (simYear, bm, bd) (sec / 86400)).2.2,
        (addDays (simYear, bm, bd) (sec / 86400)).2.1, sec % 86400 / 3600) := by
  show (if validDate simYear bm bd then
      if daysFromCivil simYear bm bd + sec / 86400 < minDay ∨
          maxDay < daysFromCivil simYear bm bd + sec / 86400 then
        Except.error PyError.overflowError
      else
        Except.ok ((addDays (simYear, bm, bd) (sec / 86400)).2.2,
          (addDays (simYear, bm, bd) (sec / 86400)).2.1, sec % 86400 / 3600)
    else Except.error PyError.valueError) = _
  rw [if_pos hv, if_neg (by omega)]

/-- Unfolding of `cumDays` one month at a time. -/
theorem cumDays_succ (y : Int) (n : Nat) :
    cumDays y (n + 1) = cumDays y n + monthDays y (n + 1) := rfl

/-- `cumDays` is monotone in the month count. -/
theorem cumDays_le (y : Int) : ∀ {a b : Nat}, a ≤ b → cumDays y a ≤ cumDays y b := by
  intro a b h
  induction b with
  | zero =>
    have ha : a = 0 := Nat.le_zero.mp h
    rw [ha]
  | succ b ih =>
    by_cases hb : a ≤ b
    · have hmd := monthDays_ge y ((b : Int) + 1)
      calc cumDays y a ≤ cumDays y b := ih hb
        _ ≤ cumDays y (b + 1) := by rw [cumDays_succ]; omega
    · have : a = b + 1 := by omega
      rw [this]

/-- `cumDays` up to a positive month splits off that month. -/
theorem cumDays_of_pos {y m : Int} (hm : 1 ≤ m) :
    cumDays y m.toNat = cumDays y (m - 1).toNat + monthDays y m := by
  have h1 : m.toNat = (m - 1).toNat + 1 := by omega
  have h2 : (((m - 1).toNat : Int) + 1) = m := by omega
  rw [h1, cumDays_succ, h2]

/-- Within a month, the day number is affine in the day. -/
theorem daysFromCivil_day (y m d : Int) :
    daysFromCivil y m d = daysFromCivil y m 1 + d - 1 := by
  simp only [daysFromCivil]
  split_ifs <;> omega

/-- The first of the next month follows the last day of a month. -/
theorem daysFromCivil_month_succ {y m : Int} (hm : 1 ≤ m) (hm12 : m < 12)
    (hy : 1 ≤ y) (hy2 : y ≤ 9999) :
    daysFromCivil y (m + 1) 1 = daysFromCivil y m (monthDays y m) + 1 := by
  have hmd := monthDays_ge y m
  have hv : validDate y m (monthDays y m) :=
    ⟨hy, hy2, hm, by omega, by omega, le_refl _⟩
  have h := toDay_nextDay hv
  rw [nextDay_pair, if_neg (lt_irrefl _), if_pos hm12] at h
  exact h

/-- The first of month `m` sits `cumDays (m-1)` days after January 1st. -/
theorem bridge_aux (y : Int) (hy : 1 ≤ y) (hy2 : y ≤ 9999) :
    ∀ (k : Nat) (m : Int), m = (k : Int) + 1 → m ≤ 12 →
      daysFromCivil y m 1 = daysFromCivil y 1 1 + cumDays y (m - 1).toNat := by
  intro k
  induction k with
  | zero =>
    intro m hm _
    rw [hm]
    norm_num
    rfl
  | succ k ih =>
    intro m hm hm12
    have hprev := ih (m - 1) (by omega) (by omega)
    have hstep := daysFromCivil_month_succ (m := m - 1) (by omega) (by omega) hy hy2
    have hmm : m - 1 + 1 = m := by omega
    rw [hmm] at hstep
    have hday := daysFromCivil_day y (m - 1) (monthDays y (m - 1))
    have hcum := cumDays_of_pos (y := y) (m := m - 1) (by omega)
    omega

/-- Bridge between the `datetime` day number and the spec-side day-of-year. -/
theorem daysFromCivil_dayOfYear {y m d : Int} (h : validDate y m d) :
    daysFromCivil y m d = daysFromCivil y 1 1 + dayOfYear y m d - 1 := by
  obtain ⟨hy1, hy2, hm1, hm2, hd1, hd2⟩ := h
  have h1 := bridge_aux y hy1 hy2 (m - 1).toNat m (by omega) hm2
  have h2 := daysFromCivil_day y m d
  unfold dayOfYear
  omega

/-- The spec-side day-of-year respects the month-lexicographic order. -/
theorem dayOfYear_mono {y m1 d1 m2 d2 : Int} (h1 : validDate y m1 d1)
    (h2 : validDate y m2 d2) (hle : m1 < m2 ∨ (m1 = m2 ∧ d1 ≤ d2)) :
    dayOfYear y m1 d1 ≤ dayOfYear y m2 d2 := by
  obtain ⟨_, _, hm1a, hm1b, hd1a, hd1b⟩ := h1
  obtain ⟨_, _, hm2a, hm2b, hd2a, hd2b⟩ := h2
  unfold dayOfYear
  rcases hle with hlt | ⟨heq, hdle⟩
  · have hcum := cumDays_of_pos (y := y) (m := m1) (by omega)
    have hmono := cumDays_le y (show m1.toNat ≤ (m2 - 1).toNat by omega)
    omega
  · subst heq
    omega

/-- Claim C1: for valid dates with `(m2, d2) ≥ (m1, d1)`, `get_delta_seconds`
returns `86400 *` the inclusive day count from `(m1, d1)` to `(m2, d2)`, the
same-day call gives `86400`, the internal "end day at 23:00 plus one hour"
equals the end day at 24:00, and the spec's two worked examples hold — all
provided the end instant does not pass `datetime.max`, i.e. excluding the
end date 9999-12-31, where the code instead raises `OverflowError` (see the
counterexample). -/
theorem claim_c1_amended (year m1 d1 m2 d2 : Int)
    (h1 : validDate year m1 d1) (h2 : validDate year m2 d2)
    (hle : m1 < m2 ∨ (m1 = m2 ∧ d1 ≤ d2))
    (hmax : ¬(year = 9999 ∧ m2 = 12 ∧ d2 = 31)) :
    get_delta_seconds year m1 d1 m2 d2 =
      Except.ok (86400 * inclusiveDays year m1 d1 m2 d2) ∧
    0 < inclusiveDays year m1 d1 m2 d2 ∧
    daysFromCivil year m2 d2 * 86400 + 23 * 3600 + 3600 =
      (daysFromCivil year m2 d2 + 1) * 86400 ∧
    get_delta_seconds 2021 1 1 1 1 = Except.ok 86400 ∧
    get_delta_seconds 2021 1 1 1 2 = Except.ok 172800 := by
  have hub := toDay_upper h2
  have hne : daysFromCivil year m2 d2 ≠ maxDay := by
    intro he
    have heq : ((year, m2, d2) : Int × Int × Int) = (9999, 12, 31) :=
      toDay_injective (x := (year, m2, d2)) (z := (9999, 12, 31)) h2 (by decide)
        (by rw [toDay_max]; exact he)
    rw [Prod.mk.injEq, Prod.mk.injEq] at heq
    exact hmax ⟨heq.1, heq.2.1, heq.2.2⟩
  have hbr1 := daysFromCivil_dayOfYear h1
  have hbr2 := daysFromCivil_dayOfYear h2
  have hmono := dayOfYear_mono h1 h2 hle
  refine ⟨?_, by unfold inclusiveDays; omega, by ring, by rfl, by rfl⟩
  show (if validDate year m1 d1 then
      if validDate year m2 d2 then
        if maxDay * 86400 + 86399 <
            daysFromCivil year m2 d2 * 86400 + 23 * 3600 + 3600 then
          Except.error PyError.overflowError
        else Except.ok ((daysFromCivil year m2 d2 * 86400 + 23 * 3600 + 3600) -
          daysFromCivil year m1 d1 * 86400)
      else Except.error PyError.valueError
    else Except.error PyError.valueError) = _
  rw [if_pos h1, if_pos h2, if_neg (by unfold maxDay at hub hne ⊢; omega)]
  congr 1
  unfold inclusiveDays
  omega

/-- Claim C1, counterexample to the claim as stated: `(9999, 1, 1, 12, 31)`
is a valid tuple with `(m2, d2) ≥ (m1, d1)`, but the call raises
`OverflowError` (the internal "end day at 23:00 plus one hour" passes
`datetime.max`) instead of returning `86400 * 365`. -/
theorem claim_c1_counterexample :
    get_delta_seconds 9999 1 1 12 31 = Except.error PyError.overflowError := by rfl

/-- Claim C1, witness: the amended theorem applied at `(2021, 1, 1, 1, 2)`
yields the spec's concrete value `172800`. -/
theorem claim_c1_witness : get_delta_seconds 2021 1 1 1 2 = Except.ok 172800 := by
  have h := (claim_c1_amended 2021 1 1 1 2 (by decide) (by decide)
    (Or.inr ⟨rfl, by norm_num⟩) (by decide)).1
  have he : inclusiveDays 2021 1 1 1 2 = 2 := by rfl
  rw [he] at h
  norm_num at h
  exact h

/-- Claim C2: for a run-period source with begin month/day, a valid start
date, a nonnegative elapsed offset, and a result within `datetime`'s range
(the amendment — beyond year 9999 the code raises `OverflowError`, see the
counterexample), `get_current_time_info` returns the `(day, month, hour)` of
the start instant plus the offset: the unique valid calendar date whose day
number is the start's day number plus `sec / 86400`, with the hour truncated
to `(sec % 86400) / 3600`; and the spec's worked example returns `(1, 1, 1)`. -/
theorem claim_c2_amended (bm bd sec simYear : Int) (rest : List RunPeriodEntry)
    (hv : validDate simYear bm bd) (hsec : 0 ≤ sec)
    (hr : daysFromCivil simYear bm bd + sec / 86400 ≤ maxDay) :
    (∃ y2 m2 d2, validDate y2 m2 d2 ∧
        daysFromCivil y2 m2 d2 = daysFromCivil simYear bm bd + sec / 86400 ∧
        get_current_time_info ⟨⟨some bm, some bd⟩ :: rest⟩ sec simYear =
          Except.ok (d2, m2, sec % 86400 / 3600)) ∧
    get_current_time_info ⟨[⟨some 1, some 1⟩]⟩ 3661 1991 = Except.ok (1, 1, 1) := by
  have hstart : minDay ≤ daysFromCivil simYear bm bd := toDay_lower hv
  have hshift : 0 ≤ sec / 86400 := Int.ediv_nonneg hsec (by norm_num)
  have h1 : minDay ≤ daysFromCivil simYear bm bd + sec / 86400 := by omega
  obtain ⟨z, hvz, hdz⟩ :=
    toDay_surjective (daysFromCivil simYear bm bd + sec / 86400) h1 hr
  have hchar : addDays (simYear, bm, bd) (sec / 86400) = z :=
    addDays_char (show ValidD (simYear, bm, bd) from hv) hvz (by rw [hdz]; rfl)
  constructor
  · obtain ⟨y2, m2, d2⟩ := z
    refine ⟨y2, m2, d2, hvz, hdz, ?_⟩
    rw [get_current_time_info_ok bm bd rest sec simYear hv h1 hr, hchar]
  · rfl

/-- Claim C2, counterexample to the claim as stated: with begin 1/1, year
1991 and the nonnegative offset 300000000000 seconds (about 9500 years) the
code raises `OverflowError` rather than returning a `(day, month, hour)`
tuple. -/
theorem claim_c2_counterexample :
    get_current_time_info ⟨[⟨some 1, some 1⟩]⟩ 300000000000 1991 =
      Except.error PyError.overflowError := by rfl

/-- Claim C2, witness: the amended theorem at begin 1/1, year 1991, elapsed
3661 seconds; in particular the call returns `(1, 1, 1)`. -/
theorem claim_c2_witness :
    (∃ y2 m2 d2, validDate y2 m2 d2 ∧
        daysFromCivil y2 m2 d2 = daysFromCivil 1991 1 1 + 3661 / 86400 ∧
        get_current_time_info ⟨[⟨some 1, some 1⟩]⟩ 3661 1991 =
          Except.ok (d2, m2, 3661 % 86400 / 3600)) ∧
    get_current_time_info ⟨[⟨some 1, some 1⟩]⟩ 3661 1991 = Except.ok (1, 1, 1) :=
  claim_c2_amended 1 1 3661 1991 [] (by decide) (by norm_num) (by decide)

/-- Claim C8: whenever the run-period table is empty or its first entry
lacks `begin_month` or `begin_day_of_month`, `get_current_time_info` raises
the `InvalidRunPeriod`-class lookup error instead of returning a value. -/
theorem claim_c8 (epm : Epm) (sec simYear : Int)
    (h : epm.RunPeriod = [] ∨
      ∃ rp rest, epm.RunPeriod = rp :: rest ∧
        (rp.begin_month = none ∨ rp.begin_day_of_month = none)) :
    get_current_time_info epm sec simYear = Except.error PyError.invalidRunPeriod := by
  rcases h with h | ⟨rp, rest, h, hf⟩
  · unfold get_current_time_info
    rw [h]
  · unfold get_current_time_info
    rw [h]
    obtain ⟨bm, bd⟩ := rp
    cases bm <;> cases bd <;>
      first
        | rfl
        | (exfalso; rcases hf with hf | hf <;> simp at hf)

/-- Claim C8, witness: an empty run-period table raises `InvalidRunPeriod`. -/
theorem claim_c8_witness :
    get_current_time_info ⟨[]⟩ 0 1991 = Except.error PyError.invalidRunPeriod :=
  claim_c8 ⟨[]⟩ 0 1991 (Or.inl rfl)

/-- Claim C10: amended.  `get_current_time_info` accepts any elapsed offset —
negative ones and ones crossing year ends included — whose resulting instant
stays within `datetime`'s years 1..9999 (the amendment: outside that range
the code raises `OverflowError`, see the counterexample); and because the
returned triple omits the year, shifting the offset by the exact length of
the intervening calendar year maps to the identical return value. -/
theorem claim_c10_amended :
    (∀ (bm bd sec simYear : Int) (rest : List RunPeriodEntry),
        validDate simYear bm bd →
        minDay ≤ daysFromCivil simYear bm bd + sec / 86400 →
        daysFromCivil simYear bm bd + sec / 86400 ≤ maxDay →
        ∃ t, get_current_time_info ⟨⟨some bm, some bd⟩ :: rest⟩ sec simYear =
          Except.ok t) ∧
    (∀ (bm bd sec simYear y1 m1 d1 : Int) (rest : List RunPeriodEntry),
        validDate simYear bm bd → validDate y1 m1 d1 → validDate (y1 + 1) m1 d1 →
        daysFromCivil simYear bm bd + sec / 86400 = daysFromCivil y1 m1 d1 →
        get_current_time_info ⟨⟨some bm, some bd⟩ :: rest⟩
            (sec + 86400 * (daysFromCivil (y1 + 1) m1 d1 - daysFromCivil y1 m1 d1))
            simYear =
          Except.ok (d1, m1, sec % 86400 / 3600) ∧
        get_current_time_info ⟨⟨some bm, some bd⟩ :: rest⟩ sec simYear =
          Except.ok (d1, m1, sec % 86400 / 3600)) := by
  constructor
  · intro bm bd sec simYear rest hv h1 h2
    exact ⟨_, get_current_time_info_ok bm bd rest sec simYear hv h1 h2⟩
  · intro bm bd sec simYear y1 m1 d1 rest hv hv1 hv2 hday
    have hlow1 := toDay_lower hv1
    have hup1 := toDay_upper hv1
    have hlow2 := toDay_lower hv2
    have hup2 := toDay_upper hv2
    have hdiv : (sec + 86400 * (daysFromCivil (y1 + 1) m1 d1 - daysFromCivil y1 m1 d1)) / 86400 =
        sec / 86400 + (daysFromCivil (y1 + 1) m1 d1 - daysFromCivil y1 m1 d1) := by
      rw [Int.add_mul_ediv_left sec _ (by norm_num)]
    have hmod : (sec + 86400 * (daysFromCivil (y1 + 1) m1 d1 - daysFromCivil y1 m1 d1)) % 86400 =
        sec % 86400 :=
      Int.add_mul_emod_self_left sec 86400
        (daysFromCivil (y1 + 1) m1 d1 - daysFromCivil y1 m1 d1)
    constructor
    · have hr1 : minDay ≤ daysFromCivil simYear bm bd +
          (sec + 86400 * (daysFromCivil (y1 + 1) m1 d1 - daysFromCivil y1 m1 d1)) / 86400 := by
        rw [hdiv]; omega
      have hr2 : daysFromCivil simYear bm bd +
          (sec + 86400 * (daysFromCivil (y1 + 1) m1 d1 - daysFromCivil y1 m1 d1)) / 86400 ≤
            maxDay := by
        rw [hdiv]; omega
      rw [get_current_time_info_ok bm bd rest _ simYear hv hr1 hr2]
      have hchar : addDays (simYear, bm, bd)
          ((sec + 86400 * (daysFromCivil (y1 + 1) m1 d1 - daysFromCivil y1 m1 d1)) / 86400) =
          (y1 + 1, m1, d1) :=
        addDays_char (show ValidD (simYear, bm, bd) from hv) hv2 (by
          show daysFromCivil (y1 + 1) m1 d1 = daysFromCivil simYear bm bd +
            (sec + 86400 * (daysFromCivil (y1 + 1) m1 d1 - daysFromCivil y1 m1 d1)) / 86400
          omega)
      rw [hchar, hmod]
    · rw [get_current_time_info_ok bm bd rest sec simYear hv (by omega) (by omega)]
      have hchar : addDays (simYear, bm, bd) (sec / 86400) = (y1, m1, d1) :=
        addDays_char (show ValidD (simYear, bm, bd) from hv) hv1
          (by show daysFromCivil y1 m1 d1 = daysFromCivil simYear bm bd + sec / 86400; omega)
      rw [hchar]

/-- Claim C10, counterexample to the claim as stated: the negative offset
-63113904000 seconds (about 2000 years before 1991) makes the instant fall
before year 1, and the code raises `OverflowError` instead of accepting it. -/
theorem claim_c10_counterexample :
    get_current_time_info ⟨[⟨some 1, some 1⟩]⟩ (-63113904000) 1991 =
      Except.error PyError.overflowError := by rfl

/-- Claim C10, witness: from begin 1/1 of 1991, the in-range negative offset
-3600 s is accepted, and the offsets 3600 s and 3600 s plus the length of
1991 (365 days) both return `(1, 1, 1)`. -/
theorem claim_c10_witness :
    (∃ t, get_current_time_info ⟨[⟨some 1, some 1⟩]⟩ (-3600) 1991 = Except.ok t) ∧
    get_current_time_info ⟨[⟨some 1, some 1⟩]⟩ 31539600 1991 = Except.ok (1, 1, 1) ∧
    get_current_time_info ⟨[⟨some 1, some 1⟩]⟩ 3600 1991 = Except.ok (1, 1, 1) := by
  refine ⟨claim_c10_amended.1 1 1 (-3600) 1991 [] (by decide) (by decide) (by decide),
    ?_, ?_⟩
  · have h := (claim_c10_amended.2 1 1 3600 1991 1991 1 1 [] (by decide) (by decide)
      (by decide) (by decide)).1
    have e1 : (3600 : Int) + 86400 * (daysFromCivil (1991 + 1) 1 1 - daysFromCivil 1991 1 1) =
        31539600 := by decide
    have e2 : (3600 : Int) % 86400 / 3600 = 1 := by decide
    rw [e1, e2] at h
    exact h
  · have h := (claim_c10_amended.2 1 1 3600 1991 1991 1 1 [] (by decide) (by decide)
      (by decide) (by decide)).2
    have e2 : (3600 : Int) % 86400 / 3600 = 1 := by decide
    rw [e2] at h
    exact h

/-- On schema-conforming elements the parser loop returns the filtered,
mapped list of `type` values. -/
theorem parseVarList_ok :
    ∀ l : List XElem, (∀ v ∈ l, varElemOK v = true) →
      parseVarList l = Except.ok
        ((l.filter (fun v => getAttr v "source" == some "EnergyPlus")).map
          (fun v => ((v.children.head?).bind (fun c => getAttr c "type")).getD "")) := by
  intro l hl
  induction l with
  | nil => rfl
  | cons v rest ih =>
    have hv := hl v (by simp)
    have hrest := ih (fun w hw => hl w (by simp [hw]))
    unfold varElemOK at hv
    rw [Bool.and_eq_true] at hv
    obtain ⟨hsome, hchild⟩ := hv
    obtain ⟨s, hs⟩ := Option.isSome_iff_exists.mp hsome
    by_cases hsE : s = "EnergyPlus"
    · subst hsE
      rcases hc : v.children with _ | ⟨c, cs⟩
      · rw [hc] at hchild; simp at hchild
      · rcases hcs : cs with _ | ⟨c2, cs2⟩
        · subst hcs
          rw [hc] at hchild
          obtain ⟨t, ht⟩ := Option.isSome_iff_exists.mp hchild
          have hval : parseVarList (v :: rest) =
              (parseVarList rest).map (fun l => t :: l) := by
            simp [parseVarList, hs, hc, ht]
          rw [hval, hrest]
          rw [List.filter_cons_of_pos (by simp [hs])]
          simp [hc, ht, Except.map]
        · rw [hc, hcs] at hchild; simp at hchild
    · have hval : parseVarList (v :: rest) = parseVarList rest := by
        simp [parseVarList, hs, hsE]
      rw [hval, hrest, List.filter_cons_of_neg (by simp [hs, hsE])]

/-- The parser loop fails exactly on a list containing a bad element. -/
theorem parseVarList_error_iff :
    ∀ l : List XElem, (∃ e, parseVarList l = Except.error e) ↔ ∃ v ∈ l, badVar v := by
  intro l
  induction l with
  | nil => simp [parseVarList]
  | cons v rest ih =>
    rcases hsrc : getAttr v "source" with _ | s
    · have hval : parseVarList (v :: rest) = Except.error PyError.keyError := by
        simp [parseVarList, hsrc]
      rw [hval]
      constructor
      · intro _
        exact ⟨v, by simp, Or.inl hsrc⟩
      · intro _
        exact ⟨PyError.keyError, rfl⟩
    · by_cases hsE : s = "EnergyPlus"
      · subst hsE
        rcases hc : v.children with _ | ⟨c, cs⟩
        · have hval : parseVarList (v :: rest) = Except.error PyError.indexError := by
            simp [parseVarList, hsrc, hc]
          rw [hval]
          constructor
          · intro _
            exact ⟨v, by simp, Or.inr ⟨hsrc, Or.inl hc⟩⟩
          · intro _
            exact ⟨PyError.indexError, rfl⟩
        · rcases ht : getAttr c "type" with _ | t
          · have hval : parseVarList (v :: rest) = Except.error PyError.keyError := by
              simp [parseVarList, hsrc, hc, ht]
            rw [hval]
            constructor
            · intro _
              exact ⟨v, by simp, Or.inr ⟨hsrc, Or.inr ⟨c, cs, hc, ht⟩⟩⟩
            · intro _
              exact ⟨PyError.keyError, rfl⟩
          · have hval : parseVarList (v :: rest) =
                (parseVarList rest).map (fun l => t :: l) := by
              simp [parseVarList, hsrc, hc, ht]
            have hnotbad : ¬ badVar v := by
              intro hb
              rcases hb with hb | ⟨_, hb | ⟨c', cs', hcc, htt⟩⟩
              · rw [hsrc] at hb; exact Option.noConfusion hb
              · rw [hc] at hb; exact List.noConfusion hb
              · rw [hc] at hcc
                obtain ⟨hc1, _⟩ := List.cons.inj hcc
                rw [← hc1, ht] at htt
                exact Option.noConfusion htt
            rw [hval]
            constructor
            · intro ⟨e, he⟩
              have hr2 : ∃ e, parseVarList rest = Except.error e := by
                rcases hr : parseVarList rest with e2 | l2
                · exact ⟨e2, rfl⟩
                · rw [hr] at he; simp [Except.map] at he
              obtain ⟨w, hw, hbw⟩ := ih.mp hr2
              exact ⟨w, by simp [hw], hbw⟩
            · intro ⟨w, hw, hbw⟩
              rcases List.mem_cons.mp hw with hw | hw
              · subst hw; exact absurd hbw hnotbad
              · obtain ⟨e, he⟩ := ih.mpr ⟨w, hw, hbw⟩
                rw [he]
                exact ⟨e, rfl⟩
      · have hval : parseVarList (v :: rest) = parseVarList rest := by
          simp [parseVarList, hsrc, hsE]
        have hnotbad : ¬ badVar v := by
          intro hb
          rcases hb with hb | ⟨hb, _⟩
          · rw [hsrc] at hb; exact Option.noConfusion hb
          · rw [hsrc] at hb
            exact hsE (Option.some.inj hb)
        rw [hval, ih]
        constructor
        · intro ⟨w, hw, hbw⟩
          exact ⟨w, by simp [hw], hbw⟩
        · intro ⟨w, hw, hbw⟩
          rcases List.mem_cons.mp hw with hw | hw
          · subst hw; exact absurd hbw hnotbad
          · exact ⟨w, hw, hbw⟩

/-- Claim C3: on any document following the schema (every `variable` child
has a `source` attribute and exactly one child carrying `type`),
`parse_variables` succeeds with exactly the `type` values of the single
child of each `variable` whose `source` is the literal `"EnergyPlus"`, in
document order, others skipped, with no sorting or deduplication. -/
theorem claim_c3 (root : XElem) (h : schemaOK root = true) :
    parse_variables root = Except.ok (specVarList root) := by
  unfold parse_variables specVarList
  rw [parseVarList_ok]
  · rw [List.filter_filter]
    refine congrArg Except.ok (congrArg _ ?_)
    exact List.filter_congr (fun a _ => Bool.and_comm _ _)
  · intro v hv
    rw [List.mem_filter] at hv
    have hall := (List.all_eq_true.mp h) v hv.1
    rw [hv.2] at hall
    simpa using hall

/-- Claim C3, witness: the spec's worked example — one EnergyPlus-sourced
`variable` with child `type="Zone Temp"`, one other-sourced with child
`type="Ignored"` — parses to `["Zone Temp"]`. -/
theorem claim_c3_witness :
    schemaOK exVarRoot = true ∧ parse_variables exVarRoot = Except.ok ["Zone Temp"] := by
  refine ⟨by rfl, ?_⟩
  have h := claim_c3 exVarRoot (by rfl)
  have he : specVarList exVarRoot = ["Zone Temp"] := by rfl
  rw [he] at h
  exact h

/-- Claim C7: amended.  On a parsed (well-formed) document,
`parse_variables` fails exactly when some `variable` child of the root
either lacks a `source` attribute altogether — this is the amendment: such
an element is not EnergyPlus-matched, yet `var.attrib['source']` still
raises `KeyError` — or has `source="EnergyPlus"` but no child, or a first
child without `type`.  On failure no partial list is returned; `variable`
elements carrying any other `source` value never cause a failure. -/
theorem claim_c7_amended (root : XElem) :
    (∃ e, parse_variables root = Except.error e) ↔
      ∃ v ∈ root.children.filter (fun v => v.tag == "variable"), badVar v := by
  unfold parse_variables
  exact parseVarList_error_iff _

/-- Claim C7, counterexample to the claim as stated: a well-formed document
whose only `variable` element has no attributes — so the document contains
no matched (EnergyPlus-sourced) `variable` at all — still makes
`parse_variables` fail with `KeyError`. -/
theorem claim_c7_counterexample :
    parse_variables cexVarRoot = Except.error PyError.keyError ∧
    List.filter (fun v => v.tag == "variable" && (getAttr v "source" == some "EnergyPlus"))
      cexVarRoot.children = [] := ⟨rfl, rfl⟩

/-- `mapIdx` with a pointwise-identity function is the identity. -/
theorem mapIdx_eq_self {α : Type} :
    ∀ (f : Nat → α → α), (∀ i v, f i v = v) → ∀ l : List α, l.mapIdx f = l := by
  intro f hf l
  induction l generalizing f with
  | nil => rfl
  | cons a tl ih =>
    rw [List.mapIdx_cons, hf 0 a, ih (fun i => f (i + 1)) (fun i v => hf (i + 1) v)]

/-- Claim C4: with `variation = None`, `create_variable_weather` returns
`None`, mutates nothing, and writes no file. -/
theorem claim_c4 (wd : WeatherData) (orig : List Char) (cols : List String)
    (g : Nat → Nat → Rat) :
    create_variable_weather wd orig cols none g = Except.ok ⟨none, wd, []⟩ := rfl

/-- Claim C5: with a `(mu, std)` variation and all target columns present,
the call succeeds, storing and writing `addNoise` of the series; position by
position, a column whose name is not in the target list is returned exactly
as it was, a column at target position `j` gets one sample `mu + std * g r j`
added per row `r`, and with variation `(0, 0)` the noise is identically zero,
so even the target columns are unchanged. -/
theorem claim_c5 (wd : WeatherData) (orig : List Char) (columns : List String)
    (mu std : Int) (g : Nat → Nat → Rat)
    (hcols : columns.all
      (fun c => wd.weather_series.any (fun col => col.1 == c)) = true) :
    create_variable_weather wd orig columns (some (mu, std)) g =
      Except.ok ⟨some (noiseFilename orig mu std),
        ⟨addNoise wd.weather_series columns mu std g⟩,
        [(noiseFilename orig mu std, addNoise wd.weather_series columns mu std g)]⟩ ∧
    (∀ (i : Nat) (name : String) (vals : List Rat),
        wd.weather_series[i]? = some (name, vals) →
        List.findIdx? (fun c => c == name) columns = none →
        (addNoise wd.weather_series columns mu std g)[i]? = some (name, vals)) ∧
    (∀ (i : Nat) (name : String) (vals : List Rat) (j : Nat),
        wd.weather_series[i]? = some (name, vals) →
        List.findIdx? (fun c => c == name) columns = some j →
        (addNoise wd.weather_series columns mu std g)[i]? =
          some (name, vals.mapIdx (fun r v => v + ((mu : Rat) + (std : Rat) * g r j)))) ∧
    addNoise wd.weather_series columns 0 0 g = wd.weather_series := by
  refine ⟨?_, ?_, ?_, ?_⟩
  · simp only [create_variable_weather]
    rw [if_pos hcols]
  · intro i name vals hget hfind
    unfold addNoise
    rw [List.getElem?_map, hget, Option.map_some']
    simp [hfind]
  · intro i name vals j hget hfind
    unfold addNoise
    rw [List.getElem?_map, hget, Option.map_some']
    simp [hfind]
  · unfold addNoise
    have hpt : ∀ col : String × List Rat,
        (match List.findIdx? (fun c => c == col.1) columns with
          | some j => (col.1, col.2.mapIdx
              (fun r v => v + (((0 : Int) : Rat) + ((0 : Int) : Rat) * g r j)))
          | none => col) = col := by
      intro col
      cases hf : List.findIdx? (fun c => c == col.1) columns with
      | none => rfl
      | some j =>
        simp only
        rw [mapIdx_eq_self _ (fun r v => by push_cast; ring)]
    calc wd.weather_series.map _ = wd.weather_series.map id :=
          List.map_congr_left (fun col _ => hpt col)
      _ = wd.weather_series := List.map_id _

/-- Claim C5, witness: on the concrete series `exDF` with target column
`drybulb` and variation `(0, 0)`, the hypothesis holds, the zero-noise
perturbation leaves the series unchanged, and the call returns the new path
with the unchanged frame. -/
theorem claim_c5_witness :
    (["drybulb"].all (fun c => exDF.any (fun col => col.1 == c)) = true) ∧
    addNoise exDF ["drybulb"] 0 0 exG = exDF ∧
    create_variable_weather ⟨exDF⟩ (String.toList "w.epw") ["drybulb"]
        (some (0, 0)) exG =
      Except.ok ⟨some (noiseFilename (String.toList "w.epw") 0 0), ⟨exDF⟩,
        [(noiseFilename (String.toList "w.epw") 0 0, exDF)]⟩ := by
  have h := claim_c5 ⟨exDF⟩ (String.toList "w.epw") ["drybulb"] 0 0 exG (by rfl)
  obtain ⟨ha, _, _, hz⟩ := h
  refine ⟨by rfl, hz, ?_⟩
  rw [ha, hz]

/-- Unfolding of `splitHead` on a nonempty list. -/
theorem splitHead_cons (sep : List Char) (c : Char) (rest : List Char) :
    splitHead sep (c :: rest) =
      if sep.isPrefixOf (c :: rest) then [] else c :: splitHead sep rest := rfl

/-- Unfolding of `firstOccur` on a nonempty list. -/
theorem firstOccur_cons (sep : List Char) (c : Char) (rest : List Char) :
    firstOccur sep (c :: rest) =
      if sep.isPrefixOf (c :: rest) then some 0
      else (firstOccur sep rest).map (fun i => i + 1) := rfl

/-- `split(sep)[0]` is the prefix before the first occurrence of `sep`. -/
theorem splitHead_eq_beforeFirst (sep : List Char) :
    ∀ s, splitHead sep s = beforeFirst sep s := by
  intro s
  induction s with
  | nil => rfl
  | cons c rest ih =>
    unfold beforeFirst
    rw [firstOccur_cons]
    by_cases hp : sep.isPrefixOf (c :: rest)
    · rw [splitHead_cons, if_pos hp, if_pos hp]
      rfl
    · rw [splitHead_cons, if_neg hp, if_neg hp, ih]
      unfold beforeFirst
      cases firstOccur sep rest with
      | none => rfl
      | some i => rfl

/-- Claim C6: amended.  With a `(mu, std)` variation (and the target columns
present), `create_variable_weather` writes to and returns the path obtained
from the original by taking the portion before the FIRST occurrence of
`.epw` — not by stripping a trailing `.epw` suffix, which differs when
`.epw` occurs earlier in the path (see the counterexample) — and appending
`_Random_<mean>_<std>.epw`. -/
theorem claim_c6_amended (wd : WeatherData) (orig : List Char) (columns : List String)
    (mu std : Int) (g : Nat → Nat → Rat)
    (hcols : columns.all
      (fun c => wd.weather_series.any (fun col => col.1 == c)) = true) :
    retOf (create_variable_weather wd orig columns (some (mu, std)) g) =
      some (beforeFirst (String.toList ".epw") orig ++
        String.toList ("_Random_" ++ toString mu ++ "_" ++ toString std ++ ".epw")) ∧
    (create_variable_weather wd orig columns (some (mu, std)) g).map
        WeatherResult.written =
      Except.ok [(beforeFirst (String.toList ".epw") orig ++
        String.toList ("_Random_" ++ toString mu ++ "_" ++ toString std ++ ".epw"),
        addNoise wd.weather_series columns mu std g)] := by
  have hval : create_variable_weather wd orig columns (some (mu, std)) g =
      Except.ok ⟨some (noiseFilename orig mu std),
        ⟨addNoise wd.weather_series columns mu std g⟩,
        [(noiseFilename orig mu std, addNoise wd.weather_series columns mu std g)]⟩ := by
    simp only [create_variable_weather]
    rw [if_pos hcols]
  have hname : noiseFilename orig mu std =
      beforeFirst (String.toList ".epw") orig ++
        String.toList ("_Random_" ++ toString mu ++ "_" ++ toString std ++ ".epw") := by
    unfold noiseFilename
    rw [splitHead_eq_beforeFirst]
  rw [hval]
  constructor
  · show some (noiseFilename orig mu std) = _
    rw [hname]
  · show Except.ok [(noiseFilename orig mu std,
      addNoise wd.weather_series columns mu std g)] = _
    rw [hname]

/-- Claim C6, counterexample to the claim as stated: for the original path
`a.epw.epw` (which ends in `.epw`) with variation `(0, 2)`, the code
returns `a_Random_0_2.epw` — the split happens at the FIRST `.epw` — while
stripping the `.epw` suffix as the claim states would give
`a.epw_Random_0_2.epw`. -/
theorem claim_c6_counterexample :
    retOf (create_variable_weather ⟨exDF⟩ (String.toList "a.epw.epw") ["drybulb"]
        (some (0, 2)) exG) =
      some (String.toList "a_Random_0_2.epw") ∧
    some (String.toList "a_Random_0_2.epw") ≠
      some (stripEpwSuffix (String.toList "a.epw.epw") ++
        String.toList ("_Random_" ++ toString (0 : Int) ++ "_" ++
          toString (2 : Int) ++ ".epw")) := by
  exact ⟨rfl, by decide⟩

/-- Claim C6, witness: the amended theorem evaluated on the concrete path
`a.epw.epw` with variation `(0, 2)` gives `a_Random_0_2.epw`. -/
theorem claim_c6_witness :
    retOf (create_variable_weather ⟨exDF⟩ (String.toList "a.epw.epw") ["drybulb"]
        (some (0, 2)) exG) =
      some (String.toList "a_Random_0_2.epw") := by
  have h := (claim_c6_amended ⟨exDF⟩ (String.toList "a.epw.epw") ["drybulb"] 0 2 exG
    (by rfl)).1
  rw [h]
  rfl

/-- Claim C9: for every starting registry in which `name` is unregistered,
every level and every format string, two `Logger.getLogger` calls with the
same name leave the shared registry entry holding the level of the most
recent call, `propagate = False`, and two console handlers — one per call,
carrying the two format strings in call order — and the returned logger is
exactly that registry entry (neither call raises: the embedding is total). -/
theorem claim_c9 (reg : LogRegistry) (name : String) (l1 l2 : Int) (f1 f2 : String)
    (h : List.lookup name reg = none) :
    (Logger.getLogger ((Logger.getLogger reg name l1 f1).1) name l2 f2).2.level = l2 ∧
    (Logger.getLogger ((Logger.getLogger reg name l1 f1).1) name l2 f2).2.propagate =
      false ∧
    (Logger.getLogger ((Logger.getLogger reg name l1 f1).1) name l2 f2).2.handlers =
      [⟨f1⟩, ⟨f2⟩] ∧
    List.lookup name ((Logger.getLogger ((Logger.getLogger reg name l1 f1).1)
        name l2 f2).1) =
      some ((Logger.getLogger ((Logger.getLogger reg name l1 f1).1) name l2 f2).2) := by
  have h1 : Logger.getLogger reg name l1 f1 =
      (regSet reg name ⟨l1, false, [⟨f1⟩]⟩, ⟨l1, false, [⟨f1⟩]⟩) := by
    unfold Logger.getLogger logging_getLogger
    rw [h]
    rfl
  have hlook : List.lookup name (regSet reg name ⟨l1, false, [⟨f1⟩]⟩) =
      some ⟨l1, false, [⟨f1⟩]⟩ := by
    unfold regSet
    simp [List.lookup]
  have h2 : Logger.getLogger (regSet reg name ⟨l1, false, [⟨f1⟩]⟩) name l2 f2 =
      (regSet (regSet reg name ⟨l1, false, [⟨f1⟩]⟩) name ⟨l2, false, [⟨f1⟩, ⟨f2⟩]⟩,
        ⟨l2, false, [⟨f1⟩, ⟨f2⟩]⟩) := by
    unfold Logger.getLogger logging_getLogger
    rw [hlook]
    rfl
  rw [h1, h2]
  refine ⟨rfl, rfl, rfl, ?_⟩
  unfold regSet
  simp [List.lookup]

/-- Claim C9, witness: starting from the empty registry, two calls under the
name `sim` with levels 10 then 20 and formats `fa` then `fb` leave level 20,
no propagation, and the two handlers in order. -/
theorem claim_c9_witness :
    (Logger.getLogger ((Logger.getLogger [] "sim" 10 "fa").1) "sim" 20 "fb").2.level =
      20 ∧
    (Logger.getLogger ((Logger.getLogger [] "sim" 10 "fa").1) "sim" 20 "fb").2.propagate =
      false ∧
    (Logger.getLogger ((Logger.getLogger [] "sim" 10 "fa").1) "sim" 20 "fb").2.handlers =
      [⟨"fa"⟩, ⟨"fb"⟩] ∧
    List.lookup "sim" ((Logger.getLogger ((Logger.getLogger [] "sim" 10 "fa").1)
        "sim" 20 "fb").1) =
      some ((Logger.getLogger ((Logger.getLogger [] "sim" 10 "fa").1) "sim" 20 "fb").2) :=
  claim_c9 [] "sim" 10 20 "fa" "fb" rfl
